import Mathlib

/-!
Verification development for the Knock-off mechanical tester.

Shallow embedding of the test-cycle controller of `mechanical_tester.py`,
the calibration mapping of `calibration.py`, and the output-limit ramp of
`position_control.py` / `minimized_control.py`.

Modelling conventions:
* Python floats are modelled as rationals (`ℚ`); the threshold logic of the
  program is pure arithmetic comparison, so `ℚ` is faithful to the control
  flow being verified.
* Stateful code is modelled as explicit state passing; the descent sample
  loop becomes a fold over a finite list of per-tick inputs (one entry per
  10 Hz sampling iteration).  A trace that ends before a terminal flag is
  set corresponds to a run cut short (for example by shutdown).
* Fallible register reads return `Option ℚ` (`none` models a transport
  error, mirroring `read_stress_value` returning `None`).
* Wall-clock timestamps attached to samples are not modelled; a sample
  keeps its position and the two baseline-relative changes.
-/

/- ------------------------------------------------------------------ -/
/- Constants, from the top of `mechanical_tester.py`.                  -/
/- ------------------------------------------------------------------ -/

def STROKE_MM : ℚ := 146

def PWM_DEADBAND : ℚ := 10

def HOME_POSITION_MM : ℚ := 50

def TEST_SPEED_PWM : ℚ := 200

def MAX_TEST_POSITION_MM : ℚ := 100

def STRESS_DETECTION_THRESHOLD : ℚ := 5

def STRESS_ZERO_THRESHOLD : ℚ := 1/2

def BASELINE_SAMPLES : ℕ := 10

/-- Interval between the baseline samples, in milliseconds: the body of
`establish_baseline` sleeps `0.1` seconds after each read. -/
def BASELINE_INTERVAL_MS : ℕ := 100

/- ------------------------------------------------------------------ -/
/- Calibration (`calibration.py`).                                     -/
/- ------------------------------------------------------------------ -/

/-- Linear interpolation over a table of `(x, y)` breakpoints with the `x`
coordinates sorted increasing, combined with the clamping that
`analog_to_mm` / `mm_to_analog` perform via `np.clip` before calling
`np.interp`: an input below the first breakpoint maps to the first `y`,
an input above the last breakpoint maps to the last `y`, and inside a
segment the value is the usual linear blend computed by `np.interp`. -/
def interp (x : ℚ) : List (ℚ × ℚ) → ℚ
  | [] => 0
  | [(_, y0)] => y0
  | (x0, y0) :: (x1, y1) :: tl =>
      if x ≤ x0 then y0
      else if x ≤ x1 then y0 + (y1 - y0) * (x - x0) / (x1 - x0)
      else interp x ((x1, y1) :: tl)

/-- Forward calibration map of `calibration.py`: the table pairs an analog
reading (mV) with a position (mm); `analog_to_mm` clamps the reading to the
analog range and interpolates positions. -/
def analog_to_mm (tbl : List (ℚ × ℚ)) (a : ℚ) : ℚ := interp a tbl

/-- Inverse calibration map of `calibration.py`: `mm_to_analog` clamps the
position to the position range and interpolates over the swapped table. -/
def mm_to_analog (tbl : List (ℚ × ℚ)) (m : ℚ) : ℚ :=
  interp m (tbl.map Prod.swap)

/- ------------------------------------------------------------------ -/
/- Output-limit ramp (`position_control.py` `set_max_pwm`,              -/
/- identically `minimized_control.py`).                                -/
/- ------------------------------------------------------------------ -/

/-- Values produced by the Python loop `for pwm in range(cur, limit, -100)`
inside `set_max_pwm`: starting at `cur`, stepping down by 100 while the
value stays strictly above `limit`. -/
def range_down (cur limit : ℕ) : List ℕ :=
  if _h : limit < cur then cur :: range_down (cur - 100) limit else []
termination_by cur
decreasing_by exact Nat.sub_lt (Nat.lt_of_le_of_lt (Nat.zero_le _) _h) (by norm_num)

/-- Sequence of limit values assigned to `pos_pid.output_limits` by one call
of `set_max_pwm(limit)` when the current limit is `cur`: the ramp-down loop
runs only when `limit < cur`, and the final assignment to `limit` itself
always happens. -/
def set_max_pwm_applied (cur limit : ℕ) : List ℕ :=
  (if limit < cur then range_down cur limit else []) ++ [limit]

/-- Guarded entry point of `set_max_pwm`: arguments outside `0 ≤ limit ≤
1000` raise `ValueError` (modelled as `none`); otherwise the applied limit
sequence is produced. -/
def set_max_pwm (cur limit : ℕ) : Option (List ℕ) :=
  if limit ≤ 1000 then some (set_max_pwm_applied cur limit) else none

example : range_down 500 150 = [500, 400, 300, 200] := by
  rw [range_down, range_down, range_down, range_down, range_down]
  norm_num

example : set_max_pwm_applied 500 150 = [500, 400, 300, 200, 150] := by
  rw [set_max_pwm_applied]
  rw [range_down, range_down, range_down, range_down, range_down]
  norm_num

/- ------------------------------------------------------------------ -/
/- Load acquisition (`establish_baseline` in `mechanical_tester.py`).  -/
/- ------------------------------------------------------------------ -/

/-- Baseline establishment: the loop performs `BASELINE_SAMPLES` reads of
the process register (`reads i` is the outcome of read number `i`),
collects the successful ones, and sets the baseline to their average;
when every read failed it returns failure (`none`), mirroring
`return False`. -/
def establish_baseline (reads : ℕ → Option ℚ) : Option ℚ :=
  let readings := ((List.range BASELINE_SAMPLES).map reads).reduceOption
  if readings.isEmpty then none
  else some (readings.sum / (readings.length : ℚ))

/- ------------------------------------------------------------------ -/
/- Descent phase of `perform_test_cycle` (`mechanical_tester.py`).     -/
/- ------------------------------------------------------------------ -/

/-- One 10 Hz sampling iteration of the descent loop reads the current
position and the process / peak stress registers; a register read may fail
(`none`), in which case the iteration appends no sample and performs no
event check. -/
structure Tick where
  pos : ℚ
  process : Option ℚ
  peak : Option ℚ
deriving DecidableEq, Repr

/-- Sample appended to `test_data`: position, baseline-relative process
change and baseline-relative peak change (the wall-clock timestamp of the
Python row is not modelled). -/
abbrev Sample : Type := ℚ × ℚ × ℚ

/-- Local state of the descent loop in `perform_test_cycle`: the three
flags, the running maximum of the process change and the accumulated
sample list. -/
structure DescentState where
  stress_returned_to_zero : Bool
  no_tooth_detected : Bool
  tooth_contacted : Bool
  max_stress_change : ℚ
  test_data : List Sample
deriving DecidableEq, Repr

/-- Initial descent state: flags cleared, running maximum `0.0`, empty
`test_data` (reset at the top of `perform_test_cycle`). -/
def initDescent : DescentState :=
  { stress_returned_to_zero := false
    no_tooth_detected := false
    tooth_contacted := false
    max_stress_change := 0
    test_data := [] }

/-- No-tooth abort condition checked on a sample tick: the position has
reached `MAX_TEST_POSITION_MM` while the running maximum process change
(after this tick) is still below the detection threshold.  The condition
reads only the position and the running maximum. -/
def noToothCond (pos m : ℚ) : Bool :=
  decide (MAX_TEST_POSITION_MM ≤ pos) && decide (m < STRESS_DETECTION_THRESHOLD)

/-- Body of the descent `while` loop for one tick.  When both register
reads succeed the loop appends a sample, updates the running maximum, and
evaluates contact, completion and no-tooth in that order: the completion
check uses the already-updated `tooth_contacted`, the no-tooth check uses
the already-updated maximum.  When a read fails the state is unchanged. -/
def descentStep (baseline : ℚ) (s : DescentState) (t : Tick) : DescentState :=
  match t.process, t.peak with
  | some ps, some pk =>
      let stress_change := ps - baseline
      let peak_change := pk - baseline
      let data := s.test_data ++ [(t.pos, stress_change, peak_change)]
      let m := max s.max_stress_change stress_change
      let contacted :=
        s.tooth_contacted || decide (STRESS_DETECTION_THRESHOLD < stress_change)
      let returned :=
        s.stress_returned_to_zero ||
          (contacted && decide (|stress_change| < STRESS_ZERO_THRESHOLD))
      let noTooth := s.no_tooth_detected || noToothCond t.pos m
      { stress_returned_to_zero := returned
        no_tooth_detected := noTooth
        tooth_contacted := contacted
        max_stress_change := m
        test_data := data }
  | _, _ => s

/-- The descent loop: `while not stress_returned_to_zero and not
no_tooth_detected and not shutdown`.  The condition is checked before each
iteration; exhausting the tick list models the run being cut short
(shutdown) before a terminal flag was reached. -/
def descentLoop (baseline : ℚ) (s : DescentState) : List Tick → DescentState
  | [] => s
  | t :: ts =>
      if s.stress_returned_to_zero || s.no_tooth_detected then s
      else descentLoop baseline (descentStep baseline s t) ts

/- ------------------------------------------------------------------ -/
/- Export and full test cycle (`mechanical_tester.py`).                -/
/- ------------------------------------------------------------------ -/

/-- Export sink call (`export_test_data`): with an empty sample list it
logs a warning and writes nothing (`none`); otherwise it writes the full
sample sequence once (`some data`). -/
def export_test_data (data : List Sample) : Option (List Sample) :=
  if data.isEmpty then none else some data

/-- Observable outcome of one `perform_test_cycle` invocation. -/
structure CycleResult where
  /-- Value of `self.cycle` after the invocation returns. -/
  cycle : ℕ
  /-- Final descent-loop state; `none` when baseline establishment failed
  and the cycle aborted before the descent. -/
  descent : Option DescentState
  /-- Export payload: `some d` when the export sink wrote the record `d`
  (it is called at most once per cycle); `none` when it never wrote
  anything. -/
  exported : Option (List Sample)
  /-- The accumulated `test_data` at the end of the invocation. -/
  samples : List Sample
deriving DecidableEq, Repr

/-- One invocation of `perform_test_cycle`, starting from cycle index
`cycle`: reset `test_data`, home (motion not modelled), establish the
baseline from the ten reads `reads`, abort on failure (early `return`,
before the index increment), otherwise run the descent loop over `ticks`,
return home, export only when `not no_tooth_detected and tooth_contacted`,
and finally increment the cycle index. -/
def perform_test_cycle (cycle : ℕ) (reads : ℕ → Option ℚ)
    (ticks : List Tick) : CycleResult :=
  match establish_baseline reads with
  | none => { cycle := cycle, descent := none, exported := none, samples := [] }
  | some baseline =>
      let s := descentLoop baseline initDescent ticks
      let exported :=
        if !s.no_tooth_detected && s.tooth_contacted then export_test_data s.test_data
        else none
      { cycle := cycle + 1, descent := some s, exported := exported,
        samples := s.test_data }

/- ------------------------------------------------------------------ -/
/- Per-tick event-check order (`perform_test_cycle`, descent loop).    -/
/- ------------------------------------------------------------------ -/

/-- The three event checks performed inside the descent loop body. -/
inductive DescentCheck where
  | contactCheck
  | completionCheck
  | noToothCheck
deriving DecidableEq, Repr

/-- Order in which the descent-loop body evaluates the three event checks
on one tick, transcribed from the source: inside the read-success block
the contact `if` comes first, then the completion `if`, then the no-tooth
`if`; on a failed read no check runs. -/
def descentTickChecks (t : Tick) : List DescentCheck :=
  match t.process, t.peak with
  | some _, some _ =>
      [DescentCheck.contactCheck, DescentCheck.completionCheck,
        DescentCheck.noToothCheck]
  | _, _ => []

/- ------------------------------------------------------------------ -/
/- Control loop and shutdown (`control_loop`, `stop_actuator`,         -/
/- `_shutdown_handler` in `mechanical_tester.py`).                     -/
/- ------------------------------------------------------------------ -/

/-- Shared state seen by the control loop: the shutdown flag, the PID
setpoint and output limits, and the two actuator output registers
(`IO_PWM.value`, `IO_DIR.value`; direction `false` = extend, `true` =
retract). -/
structure SysState where
  shutdown : Bool
  setpoint : ℚ
  lim_lo : ℚ
  lim_hi : ℚ
  pwm_out : ℕ
  dir_out : Bool
deriving DecidableEq, Repr

/-- Modelled from the spec: the PID object is the external `simple_pid`
library, absent from the repository; per the specification the Position
Controller applies the PID law against the current setpoint, clamped to
the current output limits.  The raw law output is a free parameter `raw`
and only the clamping to `(lo, hi)` is modelled. -/
def pid_output (lo hi raw : ℚ) : ℚ := max lo (min hi raw)

/-- The signed command computed by one control-loop tick before the
magnitude deadband: zero when the position error is inside the 0.5 mm
position deadband, otherwise the clamped PID output (`raw` is the raw PID
law output for this tick). -/
def computed_pwm (s : SysState) (pos raw : ℚ) : ℚ :=
  if |s.setpoint - pos| < 1/2 then 0 else pid_output s.lim_lo s.lim_hi raw

/-- Body of one control-loop iteration: apply the position deadband, then
force any magnitude below `PWM_DEADBAND` to zero, then write direction and
integer magnitude (`int(abs(pwm_signed))`, truncation) to the actuator
port. -/
def control_tick (s : SysState) (pos raw : ℚ) : SysState :=
  let pwm0 := computed_pwm s pos raw
  let pwm1 := if |pwm0| < PWM_DEADBAND then 0 else pwm0
  { s with dir_out := decide (pwm1 < 0), pwm_out := ⌊|pwm1|⌋.toNat }

/-- One turn of the `while not self._shutdown` control loop: when the
shutdown flag is set the loop exits at the condition check without running
the body (`none`); otherwise the body runs and the loop continues with the
updated state. -/
def control_loop_step (s : SysState) (pos raw : ℚ) : Option SysState :=
  if s.shutdown then none else some (control_tick s pos raw)

/-- The `stop_actuator` helper: write zero magnitude and direction to the
actuator port and pin the PID output limits to `(0, 0)`. -/
def stop_actuator (s : SysState) : SysState :=
  { s with pwm_out := 0, dir_out := false, lim_lo := 0, lim_hi := 0 }

/-- The signal handler `_shutdown_handler`: set the global shutdown flag,
then call `stop_actuator` (the `rpi.exit()` call is not modelled). -/
def shutdown_handler (s : SysState) : SysState :=
  stop_actuator { s with shutdown := true }

/- ------------------------------------------------------------------ -/
/- Invariants of the descent loop.                                     -/
/- ------------------------------------------------------------------ -/

/-- Invariant carried by the descent loop: completion implies contact,
contact implies the running maximum exceeded the detection threshold,
contact implies at least one sample was appended, and a no-tooth abort
implies the running maximum stayed below the detection threshold. -/
def descentInv (s : DescentState) : Prop :=
  (s.stress_returned_to_zero = true → s.tooth_contacted = true)
  ∧ (s.tooth_contacted = true →
      STRESS_DETECTION_THRESHOLD < s.max_stress_change)
  ∧ (s.tooth_contacted = true → s.test_data ≠ [])
  ∧ (s.no_tooth_detected = true →
      s.max_stress_change < STRESS_DETECTION_THRESHOLD)

lemma descentInv_init : descentInv initDescent := by
  refine ⟨?_, ?_, ?_, ?_⟩ <;> simp [initDescent]

lemma descentStep_inv (b : ℚ) (s : DescentState) (t : Tick)
    (hs : descentInv s) (hnt : s.no_tooth_detected = false) :
    descentInv (descentStep b s t) := by
  obtain ⟨pos, pr, pk⟩ := t
  obtain ⟨h1, h2, h3, h4⟩ := hs
  cases pr with
  | none => exact ⟨h1, h2, h3, h4⟩
  | some ps =>
    cases pk with
    | none => exact ⟨h1, h2, h3, h4⟩
    | some pkv =>
      refine ⟨?_, ?_, ?_, ?_⟩
      · intro hr
        simp only [descentStep, Bool.or_eq_true, Bool.and_eq_true,
          decide_eq_true_eq] at hr ⊢
        rcases hr with hr | ⟨hc, _⟩
        · exact Or.inl (h1 hr)
        · exact hc
      · intro hc
        simp only [descentStep, Bool.or_eq_true, decide_eq_true_eq] at hc ⊢
        rcases hc with hc | hgt
        · exact lt_max_of_lt_left (h2 hc)
        · exact lt_max_of_lt_right hgt
      · intro _
        simp only [descentStep]
        simp
      · intro hn
        simp only [descentStep, Bool.or_eq_true] at hn
        rcases hn with hn | hn
        · exact absurd hn (by simp [hnt])
        · simp only [noToothCond, Bool.and_eq_true, decide_eq_true_eq] at hn
          simpa only [descentStep] using hn.2

lemma descentLoop_inv (b : ℚ) (s : DescentState) (ts : List Tick)
    (hs : descentInv s) : descentInv (descentLoop b s ts) := by
  induction ts generalizing s with
  | nil => exact hs
  | cons t ts ih =>
    by_cases h : s.stress_returned_to_zero || s.no_tooth_detected
    · simpa [descentLoop, h] using hs
    · simp only [Bool.or_eq_true, not_or, Bool.not_eq_true] at h
      rw [descentLoop, if_neg (by simp [h.1, h.2])]
      exact ih _ (descentStep_inv b s t hs h.2)

/-- C3: For every execution of the descent sample loop (any baseline and
any finite input trace of sampling ticks, starting from the reset state),
the loop can never terminate with both the completion flag
(`stress_returned_to_zero`) and the no-tooth flag (`no_tooth_detected`)
set: completion and no-tooth abort are mutually exclusive terminal
outcomes. -/
theorem descent_completion_noTooth_mutually_exclusive
    (b : ℚ) (ts : List Tick) :
    ¬ ((descentLoop b initDescent ts).stress_returned_to_zero = true
        ∧ (descentLoop b initDescent ts).no_tooth_detected = true) := by
  rintro ⟨hr, hn⟩
  obtain ⟨h1, h2, _, h4⟩ := descentLoop_inv b initDescent ts descentInv_init
  exact absurd (h4 hn) (not_lt.mpr (le_of_lt (h2 (h1 hr))))

/-- C1: Export gating matrix for one test cycle.  (a) If contact was
detected and the descent ended via completion, the export sink is invoked
exactly once, with the full accumulated sample sequence; (b) if the
descent ended via no-tooth abort, the export sink is never invoked;
(c) if baseline establishment fails, the export sink is never invoked and
zero descent samples exist. -/
theorem export_gating_matrix (cycle : ℕ) (reads : ℕ → Option ℚ)
    (ts : List Tick) :
    (∀ s, (perform_test_cycle cycle reads ts).descent = some s →
        s.tooth_contacted = true → s.stress_returned_to_zero = true →
        (perform_test_cycle cycle reads ts).exported
          = some (perform_test_cycle cycle reads ts).samples)
    ∧ (∀ s, (perform_test_cycle cycle reads ts).descent = some s →
        s.no_tooth_detected = true →
        (perform_test_cycle cycle reads ts).exported = none)
    ∧ (establish_baseline reads = none →
        (perform_test_cycle cycle reads ts).exported = none
          ∧ (perform_test_cycle cycle reads ts).samples = []) := by
  rcases hb : establish_baseline reads with _ | b
  · refine ⟨?_, ?_, ?_⟩
    · intro s hs
      simp [perform_test_cycle, hb] at hs
    · intro s hs
      simp [perform_test_cycle, hb] at hs
    · intro _
      simp [perform_test_cycle, hb]
  · obtain ⟨h1, h2, h3, h4⟩ := descentLoop_inv b initDescent ts descentInv_init
    refine ⟨?_, ?_, ?_⟩
    · intro s hs hc hr
      simp only [perform_test_cycle, hb, Option.some_inj] at hs ⊢
      subst hs
      have hnt : (descentLoop b initDescent ts).no_tooth_detected = false := by
        cases h : (descentLoop b initDescent ts).no_tooth_detected
        · rfl
        · exact absurd (h4 h) (not_lt.mpr (le_of_lt (h2 hc)))
      have hne : ¬ (descentLoop b initDescent ts).test_data.isEmpty := by
        simpa [List.isEmpty_iff] using h3 hc
      rw [if_pos (by simp [hnt, hc])]
      simp [export_test_data, hne]
    · intro s hs hn
      simp only [perform_test_cycle, hb, Option.some_inj] at hs ⊢
      subst hs
      rw [if_neg (by simp [hn])]
    · intro h
      exact Option.noConfusion h

/-- C10: Whenever the export sink is invoked at the end of a test cycle,
the payload is the full accumulated sample sequence and is non-empty;
moreover the contact flag can only be true when at least one sample was
appended (contact is detected on a tick whose sample entered
`test_data`). -/
theorem exported_data_nonempty (cycle : ℕ) (reads : ℕ → Option ℚ)
    (ts : List Tick) :
    (∀ s, (perform_test_cycle cycle reads ts).descent = some s →
        s.tooth_contacted = true → s.test_data ≠ [])
    ∧ (∀ d, (perform_test_cycle cycle reads ts).exported = some d →
        d = (perform_test_cycle cycle reads ts).samples ∧ d ≠ []) := by
  rcases hb : establish_baseline reads with _ | b
  · refine ⟨?_, ?_⟩
    · intro s hs
      simp [perform_test_cycle, hb] at hs
    · intro d hd
      simp [perform_test_cycle, hb] at hd
  · obtain ⟨h1, h2, h3, h4⟩ := descentLoop_inv b initDescent ts descentInv_init
    refine ⟨?_, ?_⟩
    · intro s hs hc
      simp only [perform_test_cycle, hb, Option.some_inj] at hs
      subst hs
      exact h3 hc
    · intro d hd
      simp only [perform_test_cycle, hb] at hd ⊢
      by_cases hcond : !(descentLoop b initDescent ts).no_tooth_detected
          && (descentLoop b initDescent ts).tooth_contacted
      · rw [if_pos hcond] at hd
        simp only [export_test_data] at hd
        by_cases he : (descentLoop b initDescent ts).test_data.isEmpty
        · simp [he] at hd
        · rw [if_neg he, Option.some_inj] at hd
          subst hd
          exact ⟨rfl, by simpa [List.isEmpty_iff] using he⟩
      · simp [hcond] at hd

theorem export_gating_matrix_witness :
    (perform_test_cycle 0 (fun _ => some 1)
        [⟨70, some 9, some 9⟩, ⟨78, some (6/5), some 9⟩]).exported
      = some (perform_test_cycle 0 (fun _ => some 1)
          [⟨70, some 9, some 9⟩, ⟨78, some (6/5), some 9⟩]).samples :=
  (export_gating_matrix 0 (fun _ => some 1)
      [⟨70, some 9, some 9⟩, ⟨78, some (6/5), some 9⟩]).1
    (descentLoop 1 initDescent [⟨70, some 9, some 9⟩, ⟨78, some (6/5), some 9⟩])
    (by norm_num [perform_test_cycle, establish_baseline, BASELINE_SAMPLES,
      List.range_succ])
    (by norm_num [descentLoop, descentStep, initDescent, noToothCond,
      STRESS_DETECTION_THRESHOLD, STRESS_ZERO_THRESHOLD, MAX_TEST_POSITION_MM,
      abs_lt])
    (by norm_num [descentLoop, descentStep, initDescent, noToothCond,
      STRESS_DETECTION_THRESHOLD, STRESS_ZERO_THRESHOLD, MAX_TEST_POSITION_MM,
      abs_lt])

theorem exported_data_nonempty_witness :
    (perform_test_cycle 0 (fun _ => some 1)
        [⟨70, some 9, some 9⟩, ⟨78, some (6/5), some 9⟩]).samples
      = [((70 : ℚ), (8 : ℚ), (8 : ℚ)), (78, 1/5, 8)]
    ∧ ([((70 : ℚ), (8 : ℚ), (8 : ℚ)), (78, 1/5, 8)] : List Sample) ≠ [] := by
  have h := (exported_data_nonempty 0 (fun _ => some 1)
      [⟨70, some 9, some 9⟩, ⟨78, some (6/5), some 9⟩]).2
    [((70 : ℚ), (8 : ℚ), (8 : ℚ)), (78, 1/5, 8)]
    (by norm_num [perform_test_cycle, establish_baseline, BASELINE_SAMPLES,
      List.range_succ, descentLoop, descentStep, initDescent, noToothCond,
      STRESS_DETECTION_THRESHOLD, STRESS_ZERO_THRESHOLD, MAX_TEST_POSITION_MM,
      abs_lt, export_test_data])
  exact ⟨h.1.symm, h.2⟩

/- ------------------------------------------------------------------ -/
/- Baseline establishment (claim C4).                                  -/
/- ------------------------------------------------------------------ -/

lemma reduceOption_eq_nil_iff {α : Type} (l : List (Option α)) :
    l.reduceOption = [] ↔ ∀ x ∈ l, x = none := by
  induction l with
  | nil => simp
  | cons x t ih =>
    cases x with
    | none => simpa using ih
    | some a => simp

/-- C4: `establish_baseline` takes a fixed count of 10 samples at a fixed
100 ms interval, fails if and only if zero of the reads succeed, and on
success sets the baseline to the average (sum divided by count) of the
successful readings. -/
theorem establish_baseline_spec (reads : ℕ → Option ℚ) :
    BASELINE_SAMPLES = 10
    ∧ BASELINE_INTERVAL_MS = 100
    ∧ (establish_baseline reads = none ↔ ∀ i < BASELINE_SAMPLES, reads i = none)
    ∧ (∀ b, establish_baseline reads = some b →
        b = (((List.range BASELINE_SAMPLES).map reads).reduceOption).sum
          / ((((List.range BASELINE_SAMPLES).map reads).reduceOption).length : ℚ)) := by
  refine ⟨rfl, rfl, ?_, ?_⟩
  · rw [establish_baseline]
    by_cases h : (((List.range BASELINE_SAMPLES).map reads).reduceOption).isEmpty
    · rw [if_pos h]
      rw [List.isEmpty_iff, reduceOption_eq_nil_iff] at h
      exact iff_of_true rfl
        (fun i hi => h (reads i)
          (List.mem_map_of_mem reads (List.mem_range.mpr hi)))
    · rw [if_neg h]
      rw [List.isEmpty_iff, reduceOption_eq_nil_iff] at h
      push_neg at h
      obtain ⟨x, hx, hne⟩ := h
      obtain ⟨i, hi, rfl⟩ := List.mem_map.mp hx
      exact iff_of_false (by simp)
        (fun hall => hne (hall i (List.mem_range.mp hi)))
  · intro b hb
    rw [establish_baseline] at hb
    by_cases h : (((List.range BASELINE_SAMPLES).map reads).reduceOption).isEmpty
    · rw [if_pos h] at hb
      exact Option.noConfusion hb
    · rw [if_neg h] at hb
      exact (Option.some_inj.mp hb).symm

theorem establish_baseline_spec_witness :
    establish_baseline (fun _ => none) = none :=
  (establish_baseline_spec (fun _ => none)).2.2.1.mpr (fun _ _ => rfl)

/- ------------------------------------------------------------------ -/
/- Cycle index behaviour (claim C5).                                   -/
/- ------------------------------------------------------------------ -/

/-- Counterexample to C5 as stated: an invocation that aborts during
baseline establishment (all ten baseline reads fail) returns with the
cycle index unchanged — the early `return` in `perform_test_cycle` skips
the `self.cycle += 1` at the end of the function, so the index does not
increment by one on that path. -/
theorem cycle_index_baseline_abort_counterexample :
    (perform_test_cycle 0 (fun _ => none) []).cycle = 0
    ∧ (perform_test_cycle 0 (fun _ => none) []).cycle ≠ 0 + 1 := by
  constructor
  · rfl
  · decide

/-- C5 (amended): the cycle index increments by exactly one at the end of
every invocation that passes baseline establishment, exported or not; an
invocation aborted during baseline establishment leaves the index
unchanged. -/
theorem cycle_index_increment (cycle : ℕ) (reads : ℕ → Option ℚ)
    (ts : List Tick) :
    ((establish_baseline reads).isSome = true →
      (perform_test_cycle cycle reads ts).cycle = cycle + 1)
    ∧ (establish_baseline reads = none →
      (perform_test_cycle cycle reads ts).cycle = cycle) := by
  rcases hb : establish_baseline reads with _ | b
  · exact ⟨fun h => Bool.noConfusion h,
      fun _ => by simp [perform_test_cycle, hb]⟩
  · exact ⟨fun _ => by simp [perform_test_cycle, hb],
      fun h => Option.noConfusion h⟩

theorem cycle_index_increment_witness :
    (perform_test_cycle 3 (fun _ => some 1) []).cycle = 3 + 1 :=
  (cycle_index_increment 3 (fun _ => some 1) []).1
    (by norm_num [establish_baseline, BASELINE_SAMPLES, List.range_succ])

/- ------------------------------------------------------------------ -/
/- Order of the per-tick event checks (claim C2).                      -/
/- ------------------------------------------------------------------ -/

/-- Counterexample to C2 as stated: on a sample tick with successful reads
the descent loop evaluates the checks in the order contact, completion,
no-tooth, so the no-tooth abort condition is checked after, not before,
the completion condition. -/
theorem noTooth_not_checked_before_completion :
    ¬ List.indexOf DescentCheck.noToothCheck
        (descentTickChecks ⟨70, some 9, some 9⟩)
      < List.indexOf DescentCheck.completionCheck
        (descentTickChecks ⟨70, some 9, some 9⟩) := by
  decide

/-- C2 (amended): during the Descending phase, on every sample tick with
successful register reads the three event checks run in the fixed order
contact, completion, no-tooth — the no-tooth abort condition is evaluated
after the completion condition — and the no-tooth condition is evaluated
independent of the completion condition: its outcome does not depend on
the `stress_returned_to_zero` flag. -/
theorem descent_check_order (b : ℚ) (s : DescentState) (t : Tick)
    (hp : t.process.isSome = true) (hk : t.peak.isSome = true) :
    descentTickChecks t
      = [DescentCheck.contactCheck, DescentCheck.completionCheck,
          DescentCheck.noToothCheck]
    ∧ ∀ r₁ r₂ : Bool,
        (descentStep b { s with stress_returned_to_zero := r₁ } t).no_tooth_detected
          = (descentStep b { s with stress_returned_to_zero := r₂ } t).no_tooth_detected := by
  obtain ⟨pos, pr, pk⟩ := t
  cases pr with
  | none => exact Bool.noConfusion hp
  | some ps =>
    cases pk with
    | none => exact Bool.noConfusion hk
    | some pkv => exact ⟨rfl, fun r₁ r₂ => rfl⟩

theorem descent_check_order_witness :
    descentTickChecks ⟨70, some 9, some 9⟩
      = [DescentCheck.contactCheck, DescentCheck.completionCheck,
          DescentCheck.noToothCheck] :=
  (descent_check_order 1 initDescent ⟨70, some 9, some 9⟩ rfl rfl).1

/- ------------------------------------------------------------------ -/
/- Shutdown behaviour of the control loop (claim C6).                  -/
/- ------------------------------------------------------------------ -/

/-- Counterexample to C6 as stated: with the shutdown flag set (here by
the shutdown handler), the next turn of the control loop exits at the
`while` condition check without running the body — no tick runs, so the
loop never itself emits a zero magnitude to the actuator port (the
zeroing is performed by `stop_actuator` inside the handler instead). -/
theorem control_loop_emits_nothing_after_shutdown :
    (shutdown_handler ⟨false, 50, -200, 200, 150, true⟩).shutdown = true
    ∧ control_loop_step (shutdown_handler ⟨false, 50, -200, 200, 150, true⟩)
        40 120 = none
    ∧ ¬ ∃ s, control_loop_step (shutdown_handler ⟨false, 50, -200, 200, 150, true⟩)
        40 120 = some s := by
  refine ⟨rfl, rfl, ?_⟩
  rintro ⟨s, hs⟩
  exact Option.noConfusion hs

/-- C6 (amended): once the shutdown handler sets the global shutdown flag
it also pins the actuator output to zero and the controller output limits
to `(0, 0)`; the control loop exits at its next iteration check without
emitting anything further, and any control tick computed after the handler
ran emits zero magnitude, so actuator output is zero before the process
exits. -/
theorem shutdown_pins_output_and_loop_exits (s : SysState) (pos raw : ℚ) :
    (shutdown_handler s).pwm_out = 0
    ∧ (shutdown_handler s).shutdown = true
    ∧ control_loop_step (shutdown_handler s) pos raw = none
    ∧ ∀ pos2 raw2 : ℚ, (control_tick (shutdown_handler s) pos2 raw2).pwm_out = 0 := by
  refine ⟨rfl, rfl, rfl, ?_⟩
  intro pos2 raw2
  have h0 : computed_pwm (shutdown_handler s) pos2 raw2 = 0 := by
    rw [computed_pwm]
    split
    · rfl
    · show pid_output (shutdown_handler s).lim_lo (shutdown_handler s).lim_hi raw2 = 0
      show max 0 (min 0 raw2) = 0
      exact max_eq_left (min_le_left 0 raw2)
  simp [control_tick, h0, PWM_DEADBAND]

/- ------------------------------------------------------------------ -/
/- Controller magnitude deadband (claim C7).                           -/
/- ------------------------------------------------------------------ -/

/-- C7: on every control-loop tick the magnitude written to the actuator
port is either exactly zero or at least the deadband floor of 10 units;
any computed signed command whose magnitude is below the floor is
observed by the actuator port as exactly zero. -/
theorem controller_deadband (s : SysState) (pos raw : ℚ) :
    ((control_tick s pos raw).pwm_out = 0
      ∨ 10 ≤ (control_tick s pos raw).pwm_out)
    ∧ (|computed_pwm s pos raw| < PWM_DEADBAND →
        (control_tick s pos raw).pwm_out = 0) := by
  constructor
  · by_cases h : |computed_pwm s pos raw| < PWM_DEADBAND
    · left
      simp [control_tick, h]
    · right
      rw [not_lt, PWM_DEADBAND] at h
      show 10 ≤ (⌊|if |computed_pwm s pos raw| < PWM_DEADBAND then 0
        else computed_pwm s pos raw|⌋).toNat
      rw [if_neg (by rw [not_lt, PWM_DEADBAND]; exact h)]
      have h10 : (10 : ℤ) ≤ ⌊|computed_pwm s pos raw|⌋ := by
        rw [Int.le_floor]
        exact_mod_cast h
      omega
  · intro h
    simp [control_tick, h]

theorem controller_deadband_witness :
    (control_tick ⟨false, 50, -500, 500, 0, false⟩ 50 3).pwm_out = 0 :=
  (controller_deadband ⟨false, 50, -500, 500, 0, false⟩ 50 3).2
    (by norm_num [computed_pwm, PWM_DEADBAND])

/- ------------------------------------------------------------------ -/
/- Output-limit ramp-down (claim C8).                                  -/
/- ------------------------------------------------------------------ -/

lemma range_down_gt (cur limit : ℕ) : ∀ x ∈ range_down cur limit, limit < x := by
  induction cur using Nat.strong_induction_on with
  | _ cur ih =>
    rw [range_down]
    split
    · rename_i h
      intro x hx
      rcases List.mem_cons.mp hx with rfl | hx
      · exact h
      · exact ih (cur - 100) (by omega) x hx
    · intro x hx
      exact absurd hx (List.not_mem_nil x)

lemma range_down_chain_from : ∀ cur a limit : ℕ, limit ≤ cur → cur ≤ a →
    a - cur ≤ 100 →
    List.Chain (fun x y => y ≤ x ∧ x - y ≤ 100) a
      (range_down cur limit ++ [limit]) := by
  intro cur
  induction cur using Nat.strong_induction_on with
  | _ cur ih =>
    intro a limit hlc hca hstep
    rw [range_down]
    split
    · rename_i hlt
      rw [List.cons_append]
      refine List.Chain.cons ⟨hca, hstep⟩ ?_
      by_cases h2 : limit ≤ cur - 100
      · exact ih (cur - 100) (by omega) cur limit h2 (by omega) (by omega)
      · rw [range_down, dif_neg (by omega)]
        rw [List.nil_append]
        exact List.Chain.cons ⟨le_of_lt hlt, by omega⟩ List.Chain.nil
    · rename_i hge
      rw [List.nil_append]
      exact List.Chain.cons ⟨by omega, by omega⟩ List.Chain.nil

/-- C8: when the output limit is lowered from `L0` to `L1` with `L1 < L0`,
the sequence of limits applied by `set_max_pwm` never contains a value
below `L1`, every step between consecutively applied limits (starting from
the current limit `L0`) is downward and no larger than the configured
decrement of 100; and raising (or keeping) the limit is applied
immediately, in a single assignment. -/
theorem ramp_down_monotonicity (L0 L1 : ℕ) (h : L1 < L0) :
    (∀ x ∈ set_max_pwm_applied L0 L1, L1 ≤ x)
    ∧ List.Chain (fun a b => b ≤ a ∧ a - b ≤ 100) L0 (set_max_pwm_applied L0 L1)
    ∧ (∀ M0 M1 : ℕ, M0 ≤ M1 → set_max_pwm_applied M0 M1 = [M1]) := by
  refine ⟨?_, ?_, ?_⟩
  · intro x hx
    rw [set_max_pwm_applied] at hx
    rcases List.mem_append.mp hx with hx | hx
    · rw [if_pos h] at hx
      exact le_of_lt (range_down_gt L0 L1 x hx)
    · rw [List.mem_singleton] at hx
      omega
  · rw [set_max_pwm_applied, if_pos h]
    exact range_down_chain_from L0 L0 L1 (le_of_lt h) le_rfl (by omega)
  · intro M0 M1 hm
    rw [set_max_pwm_applied, if_neg (by omega)]
    rfl

theorem ramp_down_monotonicity_witness :
    List.Chain (fun a b => b ≤ a ∧ a - b ≤ 100) 500 (set_max_pwm_applied 500 150) :=
  (ramp_down_monotonicity 500 150 (by norm_num)).2.1

/- ------------------------------------------------------------------ -/
/- Calibration round trip and monotonicity (claim C9).                 -/
/- ------------------------------------------------------------------ -/

lemma interp_head (x0 y0 : ℚ) (tl : List (ℚ × ℚ)) :
    interp x0 ((x0, y0) :: tl) = y0 := by
  cases tl with
  | nil => rw [interp]
  | cons q tl2 =>
    obtain ⟨x1, y1⟩ := q
    rw [interp, if_pos le_rfl]

lemma interp_ge_head (z : ℚ) : ∀ (x0 y0 : ℚ) (tl : List (ℚ × ℚ)),
    List.Chain' (· < ·) (((x0, y0) :: tl).map Prod.fst) →
    List.Chain' (· ≤ ·) (((x0, y0) :: tl).map Prod.snd) →
    y0 ≤ interp z ((x0, y0) :: tl) := by
  intro x0 y0 tl
  induction tl generalizing x0 y0 with
  | nil =>
    intro _ _
    simp [interp]
  | cons p tl ih =>
    obtain ⟨x1, y1⟩ := p
    intro hx hy
    rw [List.map_cons, List.map_cons, List.chain'_cons] at hx hy
    obtain ⟨hx01, hx'⟩ := hx
    obtain ⟨hy01, hy'⟩ := hy
    rw [interp]
    split
    · exact le_refl y0
    · split
      · rename_i h1 h2
        have hd : (0:ℚ) < x1 - x0 := by linarith
        push_neg at h1
        have hnn : 0 ≤ (y1 - y0) * (z - x0) / (x1 - x0) :=
          div_nonneg (mul_nonneg (by linarith) (by linarith)) (le_of_lt hd)
        linarith
      · calc y0 ≤ y1 := hy01
          _ ≤ interp z ((x1, y1) :: tl) :=
            ih x1 y1 (by simpa using hx') (by simpa using hy')

lemma interp_mono : ∀ (t : List (ℚ × ℚ)),
    List.Chain' (· < ·) (t.map Prod.fst) →
    List.Chain' (· ≤ ·) (t.map Prod.snd) →
    ∀ a b : ℚ, a ≤ b → interp a t ≤ interp b t := by
  intro t
  induction t with
  | nil =>
    intro _ _ a b _
    simp [interp]
  | cons p tl ih =>
    obtain ⟨x0, y0⟩ := p
    cases tl with
    | nil =>
      intro _ _ a b _
      simp [interp]
    | cons q tl2 =>
      obtain ⟨x1, y1⟩ := q
      intro hx hy a b hab
      rw [List.map_cons, List.map_cons, List.chain'_cons] at hx hy
      obtain ⟨hx01, hx'⟩ := hx
      obtain ⟨hy01, hy'⟩ := hy
      have hxx : List.Chain' (· < ·) (((x1, y1) :: tl2).map Prod.fst) := by
        simpa using hx'
      have hyy : List.Chain' (· ≤ ·) (((x1, y1) :: tl2).map Prod.snd) := by
        simpa using hy'
      have hd : (0:ℚ) < x1 - x0 := by linarith
      simp only [interp]
      by_cases hb0 : b ≤ x0
      · rw [if_pos (le_trans hab hb0), if_pos hb0]
      · by_cases hb1 : b ≤ x1
        · by_cases ha0 : a ≤ x0
          · rw [if_pos ha0, if_neg hb0, if_pos hb1]
            push_neg at hb0
            have hnn : 0 ≤ (y1 - y0) * (b - x0) / (x1 - x0) :=
              div_nonneg (mul_nonneg (by linarith) (by linarith)) (le_of_lt hd)
            linarith
          · have ha1 : a ≤ x1 := le_trans hab hb1
            rw [if_neg ha0, if_pos ha1, if_neg hb0, if_pos hb1]
            have hmul : (y1 - y0) * (a - x0) ≤ (y1 - y0) * (b - x0) :=
              mul_le_mul_of_nonneg_left (by linarith) (by linarith)
            have hdiv := (div_le_div_iff_of_pos_right hd).mpr hmul
            linarith
        · by_cases ha0 : a ≤ x0
          · rw [if_pos ha0, if_neg hb0, if_neg hb1]
            calc y0 ≤ y1 := hy01
              _ ≤ interp b ((x1, y1) :: tl2) := interp_ge_head b x1 y1 tl2 hxx hyy
          · by_cases ha1 : a ≤ x1
            · rw [if_neg ha0, if_pos ha1, if_neg hb0, if_neg hb1]
              have hseg : y0 + (y1 - y0) * (a - x0) / (x1 - x0) ≤ y1 := by
                have hr : (a - x0) / (x1 - x0) ≤ 1 := by
                  rw [div_le_one hd]
                  linarith
                have hmul : (y1 - y0) * ((a - x0) / (x1 - x0)) ≤ (y1 - y0) * 1 :=
                  mul_le_mul_of_nonneg_left hr (by linarith)
                rw [mul_div_assoc]
                linarith
              calc y0 + (y1 - y0) * (a - x0) / (x1 - x0) ≤ y1 := hseg
                _ ≤ interp b ((x1, y1) :: tl2) :=
                  interp_ge_head b x1 y1 tl2 hxx hyy
            · rw [if_neg ha0, if_neg ha1, if_neg hb0, if_neg hb1]
              exact ih hxx hyy a b hab

lemma interp_roundtrip : ∀ (tl : List (ℚ × ℚ)) (x0 y0 : ℚ),
    List.Chain' (· < ·) (((x0, y0) :: tl).map Prod.fst) →
    List.Chain' (· < ·) (((x0, y0) :: tl).map Prod.snd) →
    ∀ m : ℚ, y0 ≤ m →
    m ≤ (((x0, y0) :: tl).getLast (List.cons_ne_nil _ _)).2 →
    interp (interp m (((x0, y0) :: tl).map Prod.swap)) ((x0, y0) :: tl) = m := by
  intro tl
  induction tl with
  | nil =>
    intro x0 y0 _ _ m hlo hhi
    have hm : m = y0 := le_antisymm (by simpa using hhi) hlo
    subst hm
    simp [interp]
  | cons q tl2 ih =>
    obtain ⟨x1, y1⟩ := q
    intro x0 y0 hx hy m hlo hhi
    rw [List.map_cons, List.map_cons, List.chain'_cons] at hx hy
    obtain ⟨hx01, hx'⟩ := hx
    obtain ⟨hy01, hy'⟩ := hy
    have hxx : List.Chain' (· < ·) (((x1, y1) :: tl2).map Prod.fst) := by
      simpa using hx'
    have hyy : List.Chain' (· < ·) (((x1, y1) :: tl2).map Prod.snd) := by
      simpa using hy'
    have hdx : (0:ℚ) < x1 - x0 := by linarith
    have hdy : (0:ℚ) < y1 - y0 := by linarith
    have hswap : ((x0, y0) :: (x1, y1) :: tl2).map Prod.swap
        = (y0, x0) :: (y1, x1) :: tl2.map Prod.swap := rfl
    by_cases hm1 : m ≤ y1
    · by_cases hm0 : m ≤ y0
      · have hm : m = y0 := le_antisymm hm0 hlo
        have hg : interp y0 ((y0, x0) :: (y1, x1) :: tl2.map Prod.swap) = x0 := by
          rw [interp, if_pos le_rfl]
        rw [hswap, hm, hg, interp_head]
      · push_neg at hm0
        have hg : interp m ((y0, x0) :: (y1, x1) :: tl2.map Prod.swap)
            = x0 + (x1 - x0) * (m - y0) / (y1 - y0) := by
          rw [interp, if_neg (by linarith), if_pos hm1]
        set a := x0 + (x1 - x0) * (m - y0) / (y1 - y0) with ha
        have hax0 : x0 < a := by
          have hpos : 0 < (x1 - x0) * (m - y0) / (y1 - y0) :=
            div_pos (mul_pos hdx (by linarith)) hdy
          rw [ha]
          linarith
        have hax1 : a ≤ x1 := by
          have hr : (m - y0) / (y1 - y0) ≤ 1 := by
            rw [div_le_one hdy]
            linarith
          have hmul : (x1 - x0) * ((m - y0) / (y1 - y0)) ≤ (x1 - x0) * 1 :=
            mul_le_mul_of_nonneg_left hr (le_of_lt hdx)
          rw [ha, mul_div_assoc]
          linarith
        rw [hswap, hg, interp, if_neg (by linarith), if_pos hax1]
        have hy10 : y1 - y0 ≠ 0 := ne_of_gt hdy
        have hx10 : x1 - x0 ≠ 0 := ne_of_gt hdx
        rw [ha]
        field_simp
        ring
    · push_neg at hm1
      have hg : interp m ((y0, x0) :: (y1, x1) :: tl2.map Prod.swap)
          = interp m ((y1, x1) :: tl2.map Prod.swap) := by
        rw [interp, if_neg (by linarith), if_neg (by linarith)]
      have hchainfst : List.Chain' (· < ·)
          (((y1, x1) :: tl2.map Prod.swap).map Prod.fst) := by
        simpa [List.map_map, Function.comp_def] using hyy
      have hchainsnd : List.Chain' (· ≤ ·)
          (((y1, x1) :: tl2.map Prod.swap).map Prod.snd) := by
        have := List.Chain'.imp (fun c d (h : c < d) => le_of_lt h) hxx
        simpa [List.map_map, Function.comp_def] using this
      have hx1a : x1 ≤ interp m ((y1, x1) :: tl2.map Prod.swap) :=
        interp_ge_head m y1 x1 (tl2.map Prod.swap) hchainfst hchainsnd
      have hmapeq : ((x1, y1) :: tl2).map Prod.swap
          = (y1, x1) :: tl2.map Prod.swap := rfl
      have hhi' : m ≤ (((x1, y1) :: tl2).getLast (List.cons_ne_nil _ _)).2 := by
        have hcast : (((x0, y0) :: (x1, y1) :: tl2).getLast (List.cons_ne_nil _ _))
            = (((x1, y1) :: tl2).getLast (List.cons_ne_nil _ _)) :=
          List.getLast_cons (List.cons_ne_nil _ _)
        rw [hcast] at hhi
        exact hhi
      have htail := ih x1 y1 hxx hyy m (le_of_lt hm1) hhi'
      rw [hmapeq] at htail
      have hxa : x1 < interp m ((y1, x1) :: tl2.map Prod.swap) := by
        rcases lt_or_eq_of_le hx1a with h | h
        · exact h
        · exfalso
          rw [← h, interp_head] at htail
          linarith
      rw [hswap, hg, interp, if_neg (by linarith), if_neg (not_le.mpr hxa)]
      exact htail

/-- C9: For any mm value within the calibration table domain (the table is
non-empty with both coordinates strictly increasing, the invariant of the
configuration data), converting mm to a raw analog value with
`mm_to_analog` and back with `analog_to_mm` recovers the original mm
exactly — in particular within any interpolation tolerance — and both the
forward and the inverse mapping are monotone on the whole (clamped)
domain. -/
theorem calibration_roundtrip_and_monotone (p : ℚ × ℚ) (tl : List (ℚ × ℚ))
    (hx : List.Chain' (· < ·) ((p :: tl).map Prod.fst))
    (hy : List.Chain' (· < ·) ((p :: tl).map Prod.snd)) :
    (∀ m : ℚ, p.2 ≤ m →
        m ≤ (((p :: tl)).getLast (List.cons_ne_nil _ _)).2 →
        analog_to_mm (p :: tl) (mm_to_analog (p :: tl) m) = m)
    ∧ (∀ a b : ℚ, a ≤ b →
        analog_to_mm (p :: tl) a ≤ analog_to_mm (p :: tl) b)
    ∧ (∀ a b : ℚ, a ≤ b →
        mm_to_analog (p :: tl) a ≤ mm_to_analog (p :: tl) b) := by
  obtain ⟨x0, y0⟩ := p
  refine ⟨?_, ?_, ?_⟩
  · intro m hlo hhi
    exact interp_roundtrip tl x0 y0 hx hy m hlo hhi
  · intro a b hab
    exact interp_mono ((x0, y0) :: tl) hx
      (List.Chain'.imp (fun c d h => le_of_lt h) hy) a b hab
  · intro a b hab
    refine interp_mono (((x0, y0) :: tl).map Prod.swap) ?_ ?_ a b hab
    · simpa [List.map_map, Function.comp_def] using hy
    · have := List.Chain'.imp (fun c d (h : c < d) => le_of_lt h) hx
      simpa [List.map_map, Function.comp_def] using this

theorem calibration_roundtrip_witness :
    analog_to_mm [(100, 0), (200, 50), (400, 146)]
      (mm_to_analog [(100, 0), (200, 50), (400, 146)] 30) = 30 :=
  (calibration_roundtrip_and_monotone (100, 0) [(200, 50), (400, 146)]
      (by norm_num [List.chain'_cons]) (by norm_num [List.chain'_cons])).1
    30 (by norm_num) (by norm_num [List.getLast])
